import Mathlib

/-!
Verification of the DAVE codec partitioner (`src/dpp/dave/codec_utils.cpp`).

Shallow embedding conventions:

* A frame or payload buffer (`const uint8_t*` plus a length) is a `List Nat`
  of its byte values; reads use `byteAt`, which models a pointer dereference
  (every read the source performs on the inputs considered here is in
  bounds).
* `size_t` arithmetic is `Nat` arithmetic.  At the spots where the source can
  underflow an unsigned subtraction we use `usub`, the wrap-around
  subtraction modulo `2 ^ 64`; where the source guards the subtraction, plain
  truncated `Nat` subtraction coincides with the C++ value and is used
  directly.
* The loops of the source are written with an explicit iteration budget
  (`fuel`) so that every definition is structurally recursive and
  executable; each wrapper passes a budget strictly larger than the number
  of iterations the loop can make, which the lemmas establish.
* The accumulator (`outbound_frame_processor`, external to this core) is
  observed through the sequence of `add_unencrypted_bytes` /
  `add_encrypted_bytes` calls a partitioner makes: each call is a `chunk`
  recording the direction, the provenance of the pointer argument and the
  `size_t` length argument.  A thrown exception is an `frame_result.err`
  carrying the calls already made before the throw.
-/

namespace CodecUtils

/-- Dereference of `buffer[i]` for a buffer modelled as a list of bytes. -/
def byteAt (buffer : List Nat) (i : Nat) : Nat := buffer.getD i 0

/-- Wrap-around `size_t` subtraction: C++ unsigned subtraction is taken
modulo `2 ^ 64`.  Used exactly where the source can underflow. -/
def usub (a b : Nat) : Nat := (2 ^ 64 + a - b) % 2 ^ 64

lemma usub_of_le {a b : Nat} (h : b ≤ a) (h2 : a < 2 ^ 64) : usub a b = a - b := by
  unfold usub
  have hpow : (2 : Nat) ^ 64 = 18446744073709551616 := by norm_num
  rw [hpow] at h2 ⊢
  omega

/-- Wrap-around `size_t` addition: C++ unsigned addition is taken modulo
`2 ^ 64`.  Used exactly where the source can overflow: the AV1
payload-overflow check `i + obuPayloadSize > frame.size()`
(codec_utils.cpp:336), the advance `i += obuPayloadSize`
(codec_utils.cpp:341) and the end-of-frame test on the advanced `i`
(codec_utils.cpp:350), which a LEB128-declared size close to `2 ^ 64` can
wrap. -/
def uadd (a b : Nat) : Nat := (a + b) % 2 ^ 64

/-- The exceptions `codec_utils.cpp` can throw: `dpp::length_exception`, and
the three `dpp::logic_exception` sites of `process_frame_av1` ("header
overflows frame", "invalid LEB128 size", "payload overflows frame"). -/
inductive dave_error
  | length_error
  | malformed_header
  | malformed_size
  | malformed_payload
deriving DecidableEq

/-- Provenance of the pointer passed to the accumulator: an offset into the
input frame, or bytes materialized by the partitioner itself (the static
long start code, the possibly rewritten OBU header byte, the re-encoded
LEB128 size). -/
inductive chunk_src
  | fromFrame (offset : Nat)
  | literal (bytes : List Nat)
deriving DecidableEq

/-- One accumulator call: `add_encrypted_bytes` when `encrypted` is true,
`add_unencrypted_bytes` otherwise, with the pointer provenance and the
`size_t` length argument. -/
structure chunk where
  encrypted : Bool
  source : chunk_src
  len : Nat
deriving DecidableEq

/-- Result of running a partitioner on one frame: `ok trace` models a normal
`return true` having made the accumulator calls in `trace`; `err e done`
models the exception `e` thrown after the calls in `done` were already
made. -/
inductive frame_result
  | ok (trace : List chunk)
  | err (e : dave_error) (done : List chunk)
deriving DecidableEq

/-- Prefix the calls already made before a sub-computation. -/
def frame_result.prepend (pre : List chunk) : frame_result → frame_result
  | .ok t => .ok (pre ++ t)
  | .err e d => .err e (pre ++ d)

/-- Whether the partitioner threw. -/
def frame_result.isErr : frame_result → Bool
  | .ok _ => false
  | .err _ _ => true

lemma frame_result.prepend_isErr (pre : List chunk) (r : frame_result) :
    (frame_result.prepend pre r).isErr = r.isErr := by
  cases r <;> rfl

lemma frame_result.prepend_ok_iff (pre : List chunk) (r : frame_result) (t : List chunk) :
    frame_result.prepend pre r = .ok t ↔ ∃ t2, r = .ok t2 ∧ t = pre ++ t2 := by
  cases r with
  | ok t2 =>
    simp only [frame_result.prepend]
    constructor
    · intro h
      exact ⟨t2, rfl, (frame_result.ok.injEq _ _ ▸ h).symm⟩
    · rintro ⟨t3, h3, rfl⟩
      rw [show t3 = t2 from (frame_result.ok.injEq _ _ ▸ h3.symm)]
  | err e d =>
    simp [frame_result.prepend]

/-! ## The NAL start-code scanner `FindNextH26XNaluIndex` (codec_utils.cpp:90-132) -/

/-- `kH26XNaluLongStartCode` (codec_utils.cpp:85). -/
def kH26XNaluLongStartCode : List Nat := [0, 0, 0, 1]

/-- The `for` loop of `FindNextH26XNaluIndex` (codec_utils.cpp:101-129).
`fuel` bounds the iterations; the wrapper passes `buffer.length + 1`, which
is always enough because `i` strictly increases and the loop stops once
`i ≥ buffer.length - 3`. -/
def findLoop (buffer : List Nat) : Nat → Nat → Option (Nat × Nat)
  | 0, _ => none
  | fuel + 1, i =>
    if i < buffer.length - 3 then
      if 1 < byteAt buffer (i + 2) then
        -- third byte is not 0 or 1, can't be a start code
        findLoop buffer fuel (i + 3)
      else if byteAt buffer (i + 2) = 1 then
        if byteAt buffer (i + 1) = 0 ∧ byteAt buffer i = 0 then
          -- confirmed start sequence {0, 0, 1}
          some (i + 3, if 1 ≤ i ∧ byteAt buffer (i - 1) = 0 then 4 else 3)
        else
          findLoop buffer fuel (i + 3)
      else
        -- third byte is 0, might be a four byte start code
        findLoop buffer fuel (i + 1)
    else
      none

/-- `FindNextH26XNaluIndex` (codec_utils.cpp:90-132): offset just past the
next start code at or after `searchStartIndex`, with the start-code size. -/
def FindNextH26XNaluIndex (buffer : List Nat) (searchStartIndex : Nat := 0) :
    Option (Nat × Nat) :=
  if buffer.length < 3 then none
  else findLoop buffer (buffer.length + 1) searchStartIndex

/-- A start code the scanner's loop can report: the bytes `00 00 01` at
index `i` with at least one further byte after them (`i + 3 <
buffer.length`, matching the loop bound `i < bufferSize - 3`). -/
def markerAt (buffer : List Nat) (i : Nat) : Prop :=
  i + 3 < buffer.length ∧ byteAt buffer i = 0 ∧ byteAt buffer (i + 1) = 0 ∧
    byteAt buffer (i + 2) = 1

instance markerAtDec (buffer : List Nat) (i : Nat) : Decidable (markerAt buffer i) :=
  inferInstanceAs (Decidable (i + 3 < buffer.length ∧ byteAt buffer i = 0 ∧
    byteAt buffer (i + 1) = 0 ∧ byteAt buffer (i + 2) = 1))

/-- A start code in the claim's sense: the three bytes `00 00 01` lie within
the buffer (nothing is required to follow them). -/
def specMarkerAt (buffer : List Nat) (i : Nat) : Prop :=
  i + 3 ≤ buffer.length ∧ byteAt buffer i = 0 ∧ byteAt buffer (i + 1) = 0 ∧
    byteAt buffer (i + 2) = 1

instance specMarkerAtDec (buffer : List Nat) (i : Nat) : Decidable (specMarkerAt buffer i) :=
  inferInstanceAs (Decidable (i + 3 ≤ buffer.length ∧ byteAt buffer i = 0 ∧
    byteAt buffer (i + 1) = 0 ∧ byteAt buffer (i + 2) = 1))

/-- What `findLoop` computes from position `i`: either no reportable start
code at or after `i`, or the earliest one, returned with the C++ start-code
size computation. -/
def findLoopSpec (buffer : List Nat) (fuel i : Nat) : Prop :=
  (findLoop buffer fuel i = none ∧ ∀ j, i ≤ j → ¬ markerAt buffer j) ∨
  (∃ j, i ≤ j ∧ markerAt buffer j ∧ (∀ k, i ≤ k → k < j → ¬ markerAt buffer k) ∧
    findLoop buffer fuel i =
      some (j + 3, if 1 ≤ j ∧ byteAt buffer (j - 1) = 0 then 4 else 3))

lemma findLoopSpec_extend (buffer : List Nat) (fuel i d : Nat)
    (hno : ∀ k, i ≤ k → k < i + d → ¬ markerAt buffer k)
    (heq : findLoop buffer (fuel + 1) i = findLoop buffer fuel (i + d))
    (ih : findLoopSpec buffer fuel (i + d)) : findLoopSpec buffer (fuel + 1) i := by
  rcases ih with ⟨hnone, hall⟩ | ⟨j, hij, hm, hmin, hsome⟩
  · left
    refine ⟨heq.trans hnone, fun j hj hmj => ?_⟩
    rcases Nat.lt_or_ge j (i + d) with h | h
    · exact hno j hj h hmj
    · exact hall j h hmj
  · right
    refine ⟨j, le_trans (Nat.le_add_right i d) hij, hm, fun k hk hkj => ?_, heq.trans hsome⟩
    rcases Nat.lt_or_ge k (i + d) with h | h
    · exact hno k hk h
    · exact hmin k h hkj

lemma findLoop_characterize (buffer : List Nat) :
    ∀ fuel i, buffer.length ≤ fuel + i → findLoopSpec buffer fuel i := by
  intro fuel
  induction fuel with
  | zero =>
    intro i hi
    left
    refine ⟨rfl, fun j hj hmj => ?_⟩
    have h4 := hmj.1
    omega
  | succ fuel ih =>
    intro i hi
    by_cases hlt : i < buffer.length - 3
    · by_cases h2 : 1 < byteAt buffer (i + 2)
      · refine findLoopSpec_extend buffer fuel i 3 ?_ (by simp [findLoop, hlt, h2])
          (ih (i + 3) (by omega))
        intro k hk hk3 hm
        have hcases : k = i ∨ k = i + 1 ∨ k = i + 2 := by omega
        rcases hcases with rfl | rfl | rfl
        · have hb : byteAt buffer (k + 2) = 1 := hm.2.2.2
          omega
        · have hb : byteAt buffer (i + 2) = 0 := hm.2.2.1
          omega
        · have hb : byteAt buffer (i + 2) = 0 := hm.2.1
          omega
      · by_cases he : byteAt buffer (i + 2) = 1
        · by_cases hpre : byteAt buffer (i + 1) = 0 ∧ byteAt buffer i = 0
          · right
            refine ⟨i, le_refl i, ⟨by omega, hpre.2, hpre.1, he⟩,
              fun k hk hki => absurd hki (by omega), ?_⟩
            simp [findLoop, hlt, h2, he, hpre.1, hpre.2]
          · refine findLoopSpec_extend buffer fuel i 3 ?_
              (by simp [findLoop, hlt, h2, he, hpre]) (ih (i + 3) (by omega))
            intro k hk hk3 hm
            have hcases : k = i ∨ k = i + 1 ∨ k = i + 2 := by omega
            rcases hcases with rfl | rfl | rfl
            · exact hpre ⟨hm.2.2.1, hm.2.1⟩
            · have hb : byteAt buffer (i + 2) = 0 := hm.2.2.1
              omega
            · have hb : byteAt buffer (i + 2) = 0 := hm.2.1
              omega
        · have h0 : ¬ (1 < byteAt buffer (i + 2)) := h2
          refine findLoopSpec_extend buffer fuel i 1 ?_
            (by simp [findLoop, hlt, h2, he]) (ih (i + 1) (by omega))
          intro k hk hk1 hm
          have hkk : k = i := by omega
          subst hkk
          have hb : byteAt buffer (k + 2) = 1 := hm.2.2.2
          omega
    · left
      constructor
      · simp only [findLoop]
        rw [if_neg hlt]
      · intro j hj hmj
        have h4 := hmj.1
        omega

lemma findNext_none_iff (buffer : List Nat) (s : Nat) :
    FindNextH26XNaluIndex buffer s = none ↔ ∀ i, s ≤ i → ¬ markerAt buffer i := by
  unfold FindNextH26XNaluIndex
  by_cases h3 : buffer.length < 3
  · rw [if_pos h3]
    refine ⟨fun _ i hi hm => ?_, fun _ => rfl⟩
    have h4 := hm.1
    omega
  · rw [if_neg h3]
    rcases findLoop_characterize buffer (buffer.length + 1) s (by omega) with
      ⟨hn, hall⟩ | ⟨j, hj, hm, hmin, hs⟩
    · rw [hn]
      exact ⟨fun _ => hall, fun _ => rfl⟩
    · rw [hs]
      refine ⟨fun h => absurd h (by simp), fun hforall => absurd hm (hforall j hj)⟩

lemma findNext_some_iff (buffer : List Nat) (s n c : Nat) :
    FindNextH26XNaluIndex buffer s = some (n, c) ↔
      ∃ i, s ≤ i ∧ markerAt buffer i ∧ (∀ j, s ≤ j → j < i → ¬ markerAt buffer j) ∧
        n = i + 3 ∧ c = if 1 ≤ i ∧ byteAt buffer (i - 1) = 0 then 4 else 3 := by
  unfold FindNextH26XNaluIndex
  by_cases h3 : buffer.length < 3
  · rw [if_pos h3]
    refine ⟨fun h => absurd h (by simp), ?_⟩
    rintro ⟨i, _, hm, _⟩
    have h4 := hm.1
    omega
  · rw [if_neg h3]
    rcases findLoop_characterize buffer (buffer.length + 1) s (by omega) with
      ⟨hn, hall⟩ | ⟨j, hj, hm, hmin, hs⟩
    · rw [hn]
      refine ⟨fun h => absurd h (by simp), ?_⟩
      rintro ⟨i, hi, hmi, _⟩
      exact absurd hmi (hall i hi)
    · rw [hs]
      constructor
      · intro h
        injection h with h1
        injection h1 with ha hb
        exact ⟨j, hj, hm, hmin, ha.symm, hb.symm⟩
      · rintro ⟨i, hi, hmi, hmini, rfl, rfl⟩
        have hij : i = j := by
          rcases Nat.lt_trichotomy i j with h | h | h
          · exact absurd hmi (hmin i hi h)
          · exact h
          · exact absurd hm (hmini j hj h)
        subst hij
        rfl

lemma findNext_isSome_iff (buffer : List Nat) :
    (FindNextH26XNaluIndex buffer).isSome = true ↔ ∃ i, markerAt buffer i := by
  cases h : FindNextH26XNaluIndex buffer with
  | none =>
    have hall := (findNext_none_iff buffer 0).mp h
    refine ⟨fun hc => absurd hc (by simp), ?_⟩
    rintro ⟨i, hi⟩
    exact absurd hi (hall i (Nat.zero_le i))
  | some r =>
    obtain ⟨n, c⟩ := r
    obtain ⟨i, _, hm, _⟩ := (findNext_some_iff buffer 0 n c).mp h
    exact ⟨fun _ => ⟨i, hm⟩, fun _ => rfl⟩

lemma findLoop_ge (buffer : List Nat) :
    ∀ fuel i n c, findLoop buffer fuel i = some (n, c) → i + 3 ≤ n := by
  intro fuel
  induction fuel with
  | zero =>
    intro i n c h
    exact absurd h (by simp [findLoop])
  | succ fuel ih =>
    intro i n c h
    unfold findLoop at h
    by_cases hlt : i < buffer.length - 3
    · rw [if_pos hlt] at h
      by_cases h2 : 1 < byteAt buffer (i + 2)
      · rw [if_pos h2] at h
        have := ih (i + 3) n c h
        omega
      · rw [if_neg h2] at h
        by_cases he : byteAt buffer (i + 2) = 1
        · rw [if_pos he] at h
          by_cases hpre : byteAt buffer (i + 1) = 0 ∧ byteAt buffer i = 0
          · rw [if_pos hpre] at h
            have : i + 3 = n := congrArg Prod.fst (Option.some.injEq _ _ ▸ h)
            omega
          · rw [if_neg hpre] at h
            have := ih (i + 3) n c h
            omega
        · rw [if_neg he] at h
          have := ih (i + 1) n c h
          omega
    · rw [if_neg hlt] at h
      exact absurd h (by simp)

lemma findNext_ge (buffer : List Nat) (s n c : Nat)
    (h : FindNextH26XNaluIndex buffer s = some (n, c)) : s + 3 ≤ n := by
  unfold FindNextH26XNaluIndex at h
  by_cases h3 : buffer.length < 3
  · rw [if_pos h3] at h
    exact absurd h (by simp)
  · rw [if_neg h3] at h
    exact findLoop_ge buffer (buffer.length + 1) s n c h

/-- C2 (amended): the scanner returns the offset just past the earliest
`00 00 01` start code at or after the start offset that is followed by at
least one byte of the buffer, with size 4 exactly when the marker is
immediately preceded by a further `00` byte; it returns `none` exactly when
no such marker exists (in particular whenever fewer than four bytes remain,
and so whenever fewer than three remain); the stride-of-3 skip never skips
such a marker.  The original claim fails for a marker whose final byte is
the last byte of the buffer: the loop bound `i < bufferSize - 3` excludes
it. -/
theorem findNextH26XNaluIndex_spec (buffer : List Nat) (s n c : Nat) :
    (FindNextH26XNaluIndex buffer s = some (n, c) ↔
      ∃ i, s ≤ i ∧ markerAt buffer i ∧ (∀ j, s ≤ j → j < i → ¬ markerAt buffer j) ∧
        n = i + 3 ∧ c = if 1 ≤ i ∧ byteAt buffer (i - 1) = 0 then 4 else 3) ∧
    (FindNextH26XNaluIndex buffer s = none ↔ ∀ i, s ≤ i → ¬ markerAt buffer i) :=
  ⟨findNext_some_iff buffer s n c, findNext_none_iff buffer s⟩

/-- C2, counterexample to the original claim: the buffer `[00, 00, 01]`
contains a start code at offset 0 (in the claim's sense: the marker lies
within the buffer), yet the scanner returns `none`, because its loop never
considers a marker ending at the buffer's final byte. -/
theorem findNext_misses_final_marker :
    FindNextH26XNaluIndex [0, 0, 1] 0 = none ∧ specMarkerAt [0, 0, 1] 0 := by
  decide

/-! ## The Golomb-prefix length calculator `BytesCoveringH264PPS`
(codec_utils.cpp:34-83) -/

/-- The `while` loop of `BytesCoveringH264PPS` (codec_utils.cpp:47-79).
State: bit cursor `b` (`payloadBitIndex`), current zero-run length `zrc`
(`zeroBitCount`), and `parsed` (`parsedExpGolombValues`).  `fuel` bounds the
iterations; the cursor strictly increases each iteration, so the wrapper's
`sizeRemaining * 8 + 1` always suffices. -/
def ppsLoop (payload : List Nat) (sizeRemaining : Nat) :
    Nat → Nat → Nat → Nat → Except dave_error Nat
  | 0, b, _, _ => .ok (b / 8 + 1)
  | fuel + 1, b, zrc, parsed =>
    if b < sizeRemaining * 8 ∧ parsed < 3 then
      if b % 8 = 0 ∧ 2 ≤ b / 8 ∧ byteAt payload (b / 8) = 3 ∧
          byteAt payload (b / 8 - 1) = 0 ∧ byteAt payload (b / 8 - 2) = 0 then
        -- emulation prevention byte, which we skip over
        ppsLoop payload sizeRemaining fuel (b + 8) zrc parsed
      else if byteAt payload (b / 8) &&& (1 <<< (7 - b % 8)) = 0 then
        -- still in the run of leading zero bits
        if 32 ≤ zrc + 1 then .error .length_error
        else ppsLoop payload sizeRemaining fuel (b + 1) (zrc + 1) parsed
      else
        -- we hit a one
        ppsLoop payload sizeRemaining fuel (b + 1 + zrc) 0 (parsed + 1)
    else
      .ok (b / 8 + 1)

/-- `BytesCoveringH264PPS` (codec_utils.cpp:34-83). -/
def BytesCoveringH264PPS (payload : List Nat) (sizeRemaining : Nat) :
    Except dave_error Nat :=
  ppsLoop payload sizeRemaining (sizeRemaining * 8 + 1) 0 0 0

/-- One Exponential-Golomb value, decoded as the spec (§4.2) words it:
from bit `b` with `zrc` zeros already counted, skip emulation-prevention
bytes at byte-aligned positions, count the run of leading zero bits (a run
reaching 32 is a length error), and once a `1` bit is found consume
`run + 1` further bits.  Returns `.inr b2` where `b2` is the first bit past
the value, or `.inl b` if the payload's bits are exhausted at bit `b`
before a `1` is found. -/
def specEgOne (payload : List Nat) (sizeRemaining : Nat) :
    Nat → Nat → Nat → Except dave_error (Nat ⊕ Nat)
  | 0, b, _ => .ok (.inl b)
  | fuel + 1, b, zrc =>
    if b < sizeRemaining * 8 then
      if b % 8 = 0 ∧ 2 ≤ b / 8 ∧ byteAt payload (b / 8) = 3 ∧
          byteAt payload (b / 8 - 1) = 0 ∧ byteAt payload (b / 8 - 2) = 0 then
        specEgOne payload sizeRemaining fuel (b + 8) zrc
      else if byteAt payload (b / 8) &&& (1 <<< (7 - b % 8)) = 0 then
        if 32 ≤ zrc + 1 then .error .length_error
        else specEgOne payload sizeRemaining fuel (b + 1) (zrc + 1)
      else
        .ok (.inr (b + 1 + zrc))
    else
      .ok (.inl b)

/-- Up to `k` further Exponential-Golomb values decoded in sequence from bit
`b`; stops early (reporting the byte count at the stop position, as the
source's final `return` does) when the payload's bits run out. -/
def specEgChain (payload : List Nat) (sizeRemaining : Nat) :
    Nat → Nat → Nat → Except dave_error Nat
  | b, _, 0 => .ok (b / 8 + 1)
  | b, zrc, k + 1 =>
    match specEgOne payload sizeRemaining (sizeRemaining * 8 + 1) b zrc with
    | .error e => .error e
    | .ok (.inl stop) => .ok (stop / 8 + 1)
    | .ok (.inr next) => specEgChain payload sizeRemaining next 0 k

/-- The spec's description of the whole routine (§4.2): three successive
Exponential-Golomb values starting at bit 0, returning the number of bytes
covering through the end of the last bit consumed. -/
def specThreeEg (payload : List Nat) (sizeRemaining : Nat) : Except dave_error Nat :=
  specEgChain payload sizeRemaining 0 0 3

lemma specEgOne_fuel (payload : List Nat) (sizeRemaining : Nat) :
    ∀ f1 f2 b zrc, sizeRemaining * 8 ≤ f1 + b → sizeRemaining * 8 ≤ f2 + b →
      specEgOne payload sizeRemaining f1 b zrc = specEgOne payload sizeRemaining f2 b zrc := by
  intro f1
  induction f1 with
  | zero =>
    intro f2 b zrc h1 h2
    have hb : ¬ b < sizeRemaining * 8 := by omega
    cases f2 with
    | zero => rfl
    | succ f2 =>
      simp only [specEgOne]
      rw [if_neg hb]
  | succ f1 ih =>
    intro f2 b zrc h1 h2
    by_cases hb : b < sizeRemaining * 8
    · cases f2 with
      | zero => omega
      | succ f2 =>
        simp only [specEgOne]
        rw [if_pos hb, if_pos hb]
        by_cases hemu : b % 8 = 0 ∧ 2 ≤ b / 8 ∧ byteAt payload (b / 8) = 3 ∧
            byteAt payload (b / 8 - 1) = 0 ∧ byteAt payload (b / 8 - 2) = 0
        · rw [if_pos hemu, if_pos hemu]
          exact ih f2 (b + 8) zrc (by omega) (by omega)
        · rw [if_neg hemu, if_neg hemu]
          by_cases hz : byteAt payload (b / 8) &&& (1 <<< (7 - b % 8)) = 0
          · rw [if_pos hz, if_pos hz]
            by_cases h32 : 32 ≤ zrc + 1
            · rw [if_pos h32, if_pos h32]
            · rw [if_neg h32, if_neg h32]
              exact ih f2 (b + 1) (zrc + 1) (by omega) (by omega)
          · rw [if_neg hz, if_neg hz]
    · cases f2 with
      | zero =>
        simp only [specEgOne]
        rw [if_neg hb]
      | succ f2 =>
        simp only [specEgOne]
        rw [if_neg hb, if_neg hb]

lemma ppsLoop_eq_chain (payload : List Nat) (sizeRemaining : Nat) :
    ∀ fuel b zrc parsed, sizeRemaining * 8 ≤ fuel + b → parsed ≤ 3 →
      ppsLoop payload sizeRemaining fuel b zrc parsed =
        specEgChain payload sizeRemaining b zrc (3 - parsed) := by
  intro fuel
  induction fuel with
  | zero =>
    intro b zrc parsed hfuel hp
    have hb : ¬ b < sizeRemaining * 8 := by omega
    cases hk : 3 - parsed with
    | zero => rfl
    | succ k =>
      have hone : specEgOne payload sizeRemaining (sizeRemaining * 8 + 1) b zrc =
          .ok (.inl b) := by
        conv_lhs => rw [specEgOne]
        rw [if_neg hb]
      conv_rhs => rw [specEgChain]
      rw [hone]
      rfl
  | succ fuel ih =>
    intro b zrc parsed hfuel hp
    by_cases hguard : b < sizeRemaining * 8 ∧ parsed < 3
    · obtain ⟨hb, hp3⟩ := hguard
      obtain ⟨k, hk⟩ : ∃ k, 3 - parsed = k + 1 := ⟨3 - parsed - 1, by omega⟩
      rw [hk]
      conv_lhs => rw [ppsLoop]
      rw [if_pos ⟨hb, hp3⟩]
      by_cases hemu : b % 8 = 0 ∧ 2 ≤ b / 8 ∧ byteAt payload (b / 8) = 3 ∧
          byteAt payload (b / 8 - 1) = 0 ∧ byteAt payload (b / 8 - 2) = 0
      · rw [if_pos hemu]
        have hstep : specEgOne payload sizeRemaining (sizeRemaining * 8 + 1) b zrc =
            specEgOne payload sizeRemaining (sizeRemaining * 8 + 1) (b + 8) zrc := by
          conv_lhs => rw [specEgOne]
          rw [if_pos hb, if_pos hemu]
          exact specEgOne_fuel payload sizeRemaining (sizeRemaining * 8)
            (sizeRemaining * 8 + 1) (b + 8) zrc (by omega) (by omega)
        have hih := ih (b + 8) zrc parsed (by omega) hp
        rw [hk] at hih
        rw [hih]
        conv_rhs => rw [specEgChain]
        rw [hstep]
        conv_lhs => rw [specEgChain]
      · by_cases hz : byteAt payload (b / 8) &&& (1 <<< (7 - b % 8)) = 0
        · by_cases h32 : 32 ≤ zrc + 1
          · rw [if_neg hemu, if_pos hz, if_pos h32]
            have hstep : specEgOne payload sizeRemaining (sizeRemaining * 8 + 1) b zrc =
                .error .length_error := by
              conv_lhs => rw [specEgOne]
              rw [if_pos hb, if_neg hemu, if_pos hz, if_pos h32]
            conv_rhs => rw [specEgChain]
            rw [hstep]
          · rw [if_neg hemu, if_pos hz, if_neg h32]
            have hstep : specEgOne payload sizeRemaining (sizeRemaining * 8 + 1) b zrc =
                specEgOne payload sizeRemaining (sizeRemaining * 8 + 1) (b + 1) (zrc + 1) := by
              conv_lhs => rw [specEgOne]
              rw [if_pos hb, if_neg hemu, if_pos hz, if_neg h32]
              exact specEgOne_fuel payload sizeRemaining (sizeRemaining * 8)
                (sizeRemaining * 8 + 1) (b + 1) (zrc + 1) (by omega) (by omega)
            have hih := ih (b + 1) (zrc + 1) parsed (by omega) hp
            rw [hk] at hih
            rw [hih]
            conv_rhs => rw [specEgChain]
            rw [hstep]
            conv_lhs => rw [specEgChain]
        · rw [if_neg hemu, if_neg hz]
          have hstep : specEgOne payload sizeRemaining (sizeRemaining * 8 + 1) b zrc =
              .ok (.inr (b + 1 + zrc)) := by
            conv_lhs => rw [specEgOne]
            rw [if_pos hb, if_neg hemu, if_neg hz]
          have hih := ih (b + 1 + zrc) 0 (parsed + 1) (by omega) (by omega)
          have hk2 : 3 - (parsed + 1) = k := by omega
          rw [hk2] at hih
          rw [hih]
          conv_rhs => rw [specEgChain]
          rw [hstep]
    · conv_lhs => rw [ppsLoop]
      rw [if_neg hguard]
      rcases Nat.lt_or_ge parsed 3 with hp3 | hp3
      · obtain ⟨k, hk⟩ : ∃ k, 3 - parsed = k + 1 := ⟨3 - parsed - 1, by omega⟩
        rw [hk]
        have hb : ¬ b < sizeRemaining * 8 := fun hb => hguard ⟨hb, hp3⟩
        have hone : specEgOne payload sizeRemaining (sizeRemaining * 8 + 1) b zrc =
            .ok (.inl b) := by
          conv_lhs => rw [specEgOne]
          rw [if_neg hb]
        conv_rhs => rw [specEgChain]
        rw [hone]
      · have hk : 3 - parsed = 0 := by omega
        rw [hk]
        rfl

/-- C6 (amended): `BytesCoveringH264PPS` decodes up to three §4.2
Exponential-Golomb values (byte-aligned emulation-prevention skipping while
scanning, `run + 1` raw bits consumed once a `1` terminates a zero run); if
three complete within the payload's bits it returns the number of bytes
covering through the end of the third, throwing a length error exactly when
a single zero-run reaches 32 bits; if the payload's bits are exhausted
first, it returns `stopBit / 8 + 1` for the bit where scanning stopped
(rather than the claim's "bytes covering the end of the third value",
which does not exist for such payloads). -/
theorem bytesCoveringH264PPS_eq_specThreeEg (payload : List Nat) (sizeRemaining : Nat) :
    BytesCoveringH264PPS payload sizeRemaining = specThreeEg payload sizeRemaining := by
  unfold BytesCoveringH264PPS specThreeEg
  exact ppsLoop_eq_chain payload sizeRemaining (sizeRemaining * 8 + 1) 0 0 0
    (by omega) (by omega)

/-- C6, counterexample to the original claim: on the all-zero two-byte
payload not a single Exponential-Golomb value completes (the first value's
zero-run is still open when the bits run out, as `specEgOne` reports), yet
the function returns `.ok 3` — and 3 even exceeds `sizeRemaining = 2`, so
the result cannot be a byte count covering a third decoded value. -/
theorem bytesCoveringH264PPS_short_payload_counterexample :
    BytesCoveringH264PPS [0, 0] 2 = Except.ok 3 ∧
      specEgOne [0, 0] 2 17 0 0 = Except.ok (Sum.inl 16) ∧ 2 < 3 := by
  refine ⟨rfl, rfl, by omega⟩

/-! ## Passthrough partitioners (codec_utils.cpp:134-178) and the coverage model -/

/-- `process_frame_opus` (codec_utils.cpp:134-138): the whole frame is
encrypted. -/
def process_frame_opus (frame : List Nat) : List chunk :=
  [⟨true, .fromFrame 0, frame.length⟩]

/-- `process_frame_vp8` (codec_utils.cpp:140-170): 10 unencrypted header
bytes for a key frame (bit 0 of byte 0 clear), 1 for a delta frame; the
rest of the frame encrypted (`frame.size() - unencryptedHeaderBytes` in
`size_t` arithmetic). -/
def process_frame_vp8 (frame : List Nat) : List chunk :=
  let unencryptedHeaderBytes := if byteAt frame 0 &&& 0x01 = 0 then 10 else 1
  [⟨false, .fromFrame 0, unencryptedHeaderBytes⟩,
   ⟨true, .fromFrame unencryptedHeaderBytes, usub frame.length unencryptedHeaderBytes⟩]

/-- `process_frame_vp9` (codec_utils.cpp:172-178): the whole frame is
encrypted. -/
def process_frame_vp9 (frame : List Nat) : List chunk :=
  [⟨true, .fromFrame 0, frame.length⟩]

/-- The (offset, size) ranges the accumulator records for a trace of calls:
its cursor starts at `pos` and each call advances it by the call's length. -/
def traceRanges : List chunk → Nat → List (Nat × Nat)
  | [], _ => []
  | c :: rest, pos => (pos, c.len) :: traceRanges rest (pos + c.len)

/-- The ranges `rs`, in order, tile the interval from `pos` to `n`: each
range starts where the previous one ended (so they are contiguous and
non-overlapping) and the last one ends at `n`. -/
def contiguousFrom : List (Nat × Nat) → Nat → Nat → Prop
  | [], pos, n => pos = n
  | (o, s) :: rest, pos, n => o = pos ∧ contiguousFrom rest (o + s) n

instance contiguousFromDec : (rs : List (Nat × Nat)) → (pos n : Nat) →
    Decidable (contiguousFrom rs pos n)
  | [], pos, n => inferInstanceAs (Decidable (pos = n))
  | (o, s) :: rest, pos, n =>
    have : Decidable (contiguousFrom rest (o + s) n) := contiguousFromDec rest (o + s) n
    inferInstanceAs (Decidable (o = pos ∧ contiguousFrom rest (o + s) n))

/-- The ranges are contiguous, non-overlapping, and cover exactly `[0, n)`. -/
def contiguousCover (rs : List (Nat × Nat)) (n : Nat) : Prop :=
  contiguousFrom rs 0 n

instance contiguousCoverDec (rs : List (Nat × Nat)) (n : Nat) :
    Decidable (contiguousCover rs n) :=
  inferInstanceAs (Decidable (contiguousFrom rs 0 n))

/-- C1 (amended): the ranges passed to the accumulator, taken in emission
order, are contiguous and non-overlapping and cover exactly
`[0, frame length)` for the opus and VP9 partitioners on every frame, and
for the VP8 partitioner on every frame at least as long as its unencrypted
header (10 bytes for a key frame, 1 for a delta frame).  For H.264, H.265
and AV1 such exact coverage of the input frame fails in general (see the
counterexample): start codes are normalized to four bytes, bytes before the
first start code are dropped, and AV1 drops and rewrites OBUs. -/
theorem partition_coverage (frame : List Nat) (hlen : frame.length < 2 ^ 64) :
    contiguousCover (traceRanges (process_frame_opus frame) 0) frame.length ∧
    contiguousCover (traceRanges (process_frame_vp9 frame) 0) frame.length ∧
    ((if byteAt frame 0 &&& 0x01 = 0 then 10 else 1) ≤ frame.length →
      contiguousCover (traceRanges (process_frame_vp8 frame) 0) frame.length) := by
  refine ⟨?_, ?_, fun hle => ?_⟩
  · simp [process_frame_opus, contiguousCover, contiguousFrom, traceRanges]
  · simp [process_frame_vp9, contiguousCover, contiguousFrom, traceRanges]
  · have hsub := usub_of_le hle hlen
    refine ⟨rfl, rfl, ?_⟩
    show 0 + (if byteAt frame 0 &&& 0x01 = 0 then 10 else 1) +
        usub frame.length (if byteAt frame 0 &&& 0x01 = 0 then 10 else 1) = frame.length
    rw [hsub]
    omega

/-- C1, witness: the delta VP8 frame `[01, 02]` is fully covered. -/
theorem partition_coverage_witness :
    contiguousCover (traceRanges (process_frame_vp8 [1, 2]) 0) 2 :=
  (partition_coverage [1, 2] (by norm_num)).2.2 (by decide)

/-! ## The H.264 partitioner `process_frame_h264` (codec_utils.cpp:180-235) -/

/-- The accumulator call emitting the static 4-byte long start code
(codec_utils.cpp:210 and 266). -/
def longStartCodeChunk : chunk := ⟨false, .literal kH26XNaluLongStartCode, 4⟩

/-- The `while` loop of `process_frame_h264` (codec_utils.cpp:201-232).
`fuel` bounds the iterations; each iteration's next start-code offset is at
least 3 larger, so the wrapper's `frame.length + 1` always suffices. -/
def h264Loop (frame : List Nat) : Nat → Option (Nat × Nat) → frame_result
  | 0, _ => .ok []
  | fuel + 1, naluIndexPair =>
    match naluIndexPair with
    | none => .ok []
    | some (nalUnitStartIndex, _) =>
      if nalUnitStartIndex < frame.length - 1 then
        let nalType := byteAt frame nalUnitStartIndex &&& 0x1F
        let nextNaluIndexPair := FindNextH26XNaluIndex frame nalUnitStartIndex
        let nextNaluStart :=
          match nextNaluIndexPair with
          | some p => p.1 - p.2
          | none => frame.length
        if nalType = 1 ∨ nalType = 5 then
          -- slice or IDR: cover getting to the PPS ID
          let nalUnitPayloadStart := nalUnitStartIndex + 1
          match BytesCoveringH264PPS (frame.drop nalUnitPayloadStart)
              (frame.length - nalUnitPayloadStart) with
          | .error e => .err e [longStartCodeChunk]
          | .ok nalUnitPPSBytes =>
            frame_result.prepend
              [longStartCodeChunk,
               ⟨false, .fromFrame nalUnitStartIndex, 1 + nalUnitPPSBytes⟩,
               ⟨true, .fromFrame (nalUnitStartIndex + 1 + nalUnitPPSBytes),
                 usub (usub (nextNaluStart - nalUnitStartIndex) 1) nalUnitPPSBytes⟩]
              (h264Loop frame fuel nextNaluIndexPair)
        else
          -- copy the whole NAL unit
          frame_result.prepend
            [longStartCodeChunk,
             ⟨false, .fromFrame nalUnitStartIndex, nextNaluStart - nalUnitStartIndex⟩]
            (h264Loop frame fuel nextNaluIndexPair)
      else .ok []

/-- `process_frame_h264` (codec_utils.cpp:180-235). -/
def process_frame_h264 (frame : List Nat) : frame_result :=
  if frame.length < 3 + 1 then .err .length_error []
  else h264Loop frame (frame.length + 1) (FindNextH26XNaluIndex frame 0)

/-! ## The H.265 partitioner `process_frame_h265` (codec_utils.cpp:237-284) -/

/-- The `while` loop of `process_frame_h265` (codec_utils.cpp:256-281). -/
def h265Loop (frame : List Nat) : Nat → Option (Nat × Nat) → frame_result
  | 0, _ => .ok []
  | fuel + 1, naluIndexPair =>
    match naluIndexPair with
    | none => .ok []
    | some (nalUnitStartIndex, _) =>
      if nalUnitStartIndex < frame.length - 1 then
        let nalType := (byteAt frame nalUnitStartIndex &&& 0x7E) >>> 1
        let nextNaluIndexPair := FindNextH26XNaluIndex frame nalUnitStartIndex
        let nextNaluStart :=
          match nextNaluIndexPair with
          | some p => p.1 - p.2
          | none => frame.length
        if nalType < 32 then
          -- found a VCL NAL, encrypt the payload only
          frame_result.prepend
            [longStartCodeChunk,
             ⟨false, .fromFrame nalUnitStartIndex, 2⟩,
             ⟨true, .fromFrame (nalUnitStartIndex + 2),
               usub (nextNaluStart - nalUnitStartIndex) 2⟩]
            (h265Loop frame fuel nextNaluIndexPair)
        else
          -- copy the whole NAL unit
          frame_result.prepend
            [longStartCodeChunk,
             ⟨false, .fromFrame nalUnitStartIndex, nextNaluStart - nalUnitStartIndex⟩]
            (h265Loop frame fuel nextNaluIndexPair)
      else .ok []

/-- `process_frame_h265` (codec_utils.cpp:237-284). -/
def process_frame_h265 (frame : List Nat) : frame_result :=
  if frame.length < 3 + 2 then .err .length_error []
  else h265Loop frame (frame.length + 1) (FindNextH26XNaluIndex frame 0)

/-- C1, counterexample to the original claim: the valid H.264 frame
`00 00 01 67 AA` (a 3-byte start code and a type-7 SPS unit) is processed
without error, but the emitted ranges total 6 bytes against a 5-byte frame
(the 3-byte source marker is replaced by the 4-byte normalized one), so
they do not cover `[0, frame length)`. -/
theorem h264_coverage_counterexample :
    process_frame_h264 [0, 0, 1, 0x67, 0xAA] =
      frame_result.ok [longStartCodeChunk, ⟨false, .fromFrame 3, 2⟩] ∧
    ¬ contiguousCover
        (traceRanges [longStartCodeChunk, ⟨false, .fromFrame 3, 2⟩] 0) 5 := by
  exact ⟨rfl, by decide⟩

/-- C9: a frame smaller than one 3-byte marker plus the 1-byte (H.264) or
2-byte (H.265) NAL header makes the partitioner throw a length error with
no accumulator call made (the guard precedes the unit-walking loop in the
source, so the partial trace is empty). -/
theorem short_frame_length_error (frame : List Nat) :
    (frame.length < 4 → process_frame_h264 frame = .err .length_error []) ∧
    (frame.length < 5 → process_frame_h265 frame = .err .length_error []) := by
  constructor
  · intro h
    unfold process_frame_h264
    rw [if_pos (by omega : frame.length < 3 + 1)]
  · intro h
    unfold process_frame_h265
    rw [if_pos (by omega : frame.length < 3 + 2)]

/-- C9, witness at the 1-byte frame `[00]`. -/
theorem short_frame_length_error_witness :
    process_frame_h264 [0] = .err .length_error [] ∧
      process_frame_h265 [0] = .err .length_error [] :=
  ⟨(short_frame_length_error [0]).1 (by decide),
   (short_frame_length_error [0]).2 (by decide)⟩

/-- C4, evaluation at the failing input: on the H.264 frame
`00 00 01 65 00 00 01 41 FF` the Golomb scan of the first (IDR) unit runs
past the start of the second unit (`BytesCoveringH264PPS` covers 6 bytes
while only 1 byte separates the unit from the next start code), so the
partitioner emits an unencrypted range of 7 bytes starting at offset 3 of
the 9-byte frame (overrunning it by one byte) and an "encrypted remainder"
whose `size_t` length underflows to `2 ^ 64 - 6`, instead of the claim's
remainder up to the next unit boundary. -/
theorem h264_pps_overrun_eval :
    process_frame_h264 [0, 0, 1, 0x65, 0, 0, 1, 0x41, 0xFF] =
      frame_result.ok
        [longStartCodeChunk,
         ⟨false, .fromFrame 3, 7⟩,
         ⟨true, .fromFrame 10, 2 ^ 64 - 6⟩,
         longStartCodeChunk,
         ⟨false, .fromFrame 7, 2⟩,
         ⟨true, .fromFrame 9, 0⟩] := by
  rfl

/-- C7, evaluation at the failing input: on the H.265 frame
`00 00 01 00 00 01 AA` the first "unit" is empty (the next start code
begins immediately), yet the type field read at the unit start is below 32,
so the partitioner emits a 2-byte "header" that actually overlaps the next
start code and an encrypted payload whose `size_t` length underflows to
`2 ^ 64 - 2`, instead of the claim's payload up to the next unit
boundary. -/
theorem h265_empty_unit_eval :
    process_frame_h265 [0, 0, 1, 0, 0, 1, 0xAA] =
      frame_result.ok
        [longStartCodeChunk,
         ⟨false, .fromFrame 3, 2⟩,
         ⟨true, .fromFrame 5, 2 ^ 64 - 2⟩] := by
  rfl

/-- Every frame-sourced call in the trace starts at offset `m` or later (so
no byte of the frame below `m` is ever passed to the accumulator). -/
def dropsBytesBelow (t : List chunk) (m : Nat) : Prop :=
  ∀ ch ∈ t, ∀ o, ch.source = chunk_src.fromFrame o → m ≤ o

lemma dropsBytesBelow_mono {t : List chunk} {m m2 : Nat} (h : dropsBytesBelow t m)
    (hm : m2 ≤ m) : dropsBytesBelow t m2 :=
  fun ch hch o ho => le_trans hm (h ch hch o ho)

lemma h264Loop_offsets (frame : List Nat) :
    ∀ fuel s c t, h264Loop frame fuel (some (s, c)) = .ok t → dropsBytesBelow t s := by
  intro fuel
  induction fuel with
  | zero =>
    intro s c t h
    have ht : t = [] := by
      have : frame_result.ok [] = frame_result.ok t := h
      injection this with h2
      exact h2.symm
    subst ht
    intro ch hch
    exact absurd hch (List.not_mem_nil ch)
  | succ fuel ih =>
    intro s c t h
    simp only [h264Loop] at h
    by_cases hlt : s < frame.length - 1
    · rw [if_pos hlt] at h
      by_cases htype : byteAt frame s &&& 0x1F = 1 ∨ byteAt frame s &&& 0x1F = 5
      · rw [if_pos htype] at h
        cases hpps : BytesCoveringH264PPS (frame.drop (s + 1)) (frame.length - (s + 1)) with
        | error e =>
          rw [hpps] at h
          exact absurd h (by simp)
        | ok pps =>
          rw [hpps] at h
          rw [frame_result.prepend_ok_iff] at h
          obtain ⟨t2, ht2, rfl⟩ := h
          have hrest : dropsBytesBelow t2 s := by
            cases hnext : FindNextH26XNaluIndex frame s with
            | none =>
              rw [hnext] at ht2
              have : t2 = [] := by
                cases fuel with
                | zero =>
                  injection ht2 with h3
                  exact h3.symm
                | succ fuel2 =>
                  injection ht2 with h3
                  exact h3.symm
              subst this
              intro ch hch
              exact absurd hch (List.not_mem_nil ch)
            | some p =>
              obtain ⟨n2, c2⟩ := p
              rw [hnext] at ht2
              have hge := findNext_ge frame s n2 c2 hnext
              exact dropsBytesBelow_mono (ih n2 c2 t2 ht2) (by omega)
          intro ch hch o ho
          rcases hch with _ | ⟨_, _ | ⟨_, _ | ⟨_, hch⟩⟩⟩
          · cases ho
          · injection ho with ho2
            omega
          · injection ho with ho2
            omega
          · exact hrest ch hch o ho
      · rw [if_neg htype] at h
        rw [frame_result.prepend_ok_iff] at h
        obtain ⟨t2, ht2, rfl⟩ := h
        have hrest : dropsBytesBelow t2 s := by
          cases hnext : FindNextH26XNaluIndex frame s with
          | none =>
            rw [hnext] at ht2
            have : t2 = [] := by
              cases fuel with
              | zero =>
                injection ht2 with h3
                exact h3.symm
              | succ fuel2 =>
                injection ht2 with h3
                exact h3.symm
            subst this
            intro ch hch
            exact absurd hch (List.not_mem_nil ch)
          | some p =>
            obtain ⟨n2, c2⟩ := p
            rw [hnext] at ht2
            have hge := findNext_ge frame s n2 c2 hnext
            exact dropsBytesBelow_mono (ih n2 c2 t2 ht2) (by omega)
        intro ch hch o ho
        rcases hch with _ | ⟨_, _ | ⟨_, hch⟩⟩
        · cases ho
        · injection ho with ho2
          omega
        · exact hrest ch hch o ho
    · rw [if_neg hlt] at h
      have ht : t = [] := by
        injection h with h2
        exact h2.symm
      subst ht
      intro ch hch
      exact absurd hch (List.not_mem_nil ch)

lemma h265Loop_offsets (frame : List Nat) :
    ∀ fuel s c t, h265Loop frame fuel (some (s, c)) = .ok t → dropsBytesBelow t s := by
  intro fuel
  induction fuel with
  | zero =>
    intro s c t h
    have ht : t = [] := by
      injection h with h2
      exact h2.symm
    subst ht
    intro ch hch
    exact absurd hch (List.not_mem_nil ch)
  | succ fuel ih =>
    intro s c t h
    simp only [h265Loop] at h
    by_cases hlt : s < frame.length - 1
    · rw [if_pos hlt] at h
      have hrest : ∀ t2, h265Loop frame fuel (FindNextH26XNaluIndex frame s) = .ok t2 →
          dropsBytesBelow t2 s := by
        intro t2 ht2
        cases hnext : FindNextH26XNaluIndex frame s with
        | none =>
          rw [hnext] at ht2
          have : t2 = [] := by
            cases fuel with
            | zero =>
              injection ht2 with h3
              exact h3.symm
            | succ fuel2 =>
              injection ht2 with h3
              exact h3.symm
          subst this
          intro ch hch
          exact absurd hch (List.not_mem_nil ch)
        | some p =>
          obtain ⟨n2, c2⟩ := p
          rw [hnext] at ht2
          have hge := findNext_ge frame s n2 c2 hnext
          exact dropsBytesBelow_mono (ih n2 c2 t2 ht2) (by omega)
      by_cases htype : (byteAt frame s &&& 0x7E) >>> 1 < 32
      · rw [if_pos htype] at h
        rw [frame_result.prepend_ok_iff] at h
        obtain ⟨t2, ht2, rfl⟩ := h
        intro ch hch o ho
        rcases hch with _ | ⟨_, _ | ⟨_, _ | ⟨_, hch⟩⟩⟩
        · cases ho
        · injection ho with ho2
          omega
        · injection ho with ho2
          omega
        · exact hrest t2 ht2 ch hch o ho
      · rw [if_neg htype] at h
        rw [frame_result.prepend_ok_iff] at h
        obtain ⟨t2, ht2, rfl⟩ := h
        intro ch hch o ho
        rcases hch with _ | ⟨_, _ | ⟨_, hch⟩⟩
        · cases ho
        · injection ho with ho2
          omega
        · exact hrest t2 ht2 ch hch o ho
    · rw [if_neg hlt] at h
      have ht : t = [] := by
        injection h with h2
        exact h2.symm
      subst ht
      intro ch hch
      exact absurd hch (List.not_mem_nil ch)

/-- C10: for every H.264 or H.265 frame processed without error, the bytes
preceding the first start code the scanner finds — the marker occupies
`[idx - c, idx)`, so those bytes are `[0, idx - c)` — are never passed to
the accumulator from the frame in either direction: every frame-sourced
call starts at or after `idx - c` (indeed at or after `idx`). -/
theorem h26x_bytes_before_first_marker_dropped (frame : List Nat) (idx c : Nat)
    (t : List chunk) (hfind : FindNextH26XNaluIndex frame 0 = some (idx, c)) :
    (process_frame_h264 frame = .ok t → dropsBytesBelow t (idx - c)) ∧
    (process_frame_h265 frame = .ok t → dropsBytesBelow t (idx - c)) := by
  constructor
  · intro h
    unfold process_frame_h264 at h
    by_cases hlen : frame.length < 3 + 1
    · rw [if_pos hlen] at h
      exact absurd h (by simp)
    · rw [if_neg hlen, hfind] at h
      exact dropsBytesBelow_mono (h264Loop_offsets frame (frame.length + 1) idx c t h)
        (Nat.sub_le idx c)
  · intro h
    unfold process_frame_h265 at h
    by_cases hlen : frame.length < 3 + 2
    · rw [if_pos hlen] at h
      exact absurd h (by simp)
    · rw [if_neg hlen, hfind] at h
      exact dropsBytesBelow_mono (h265Loop_offsets frame (frame.length + 1) idx c t h)
        (Nat.sub_le idx c)

/-- C10, witness: on the H.264 frame `09 00 00 01 67 AA` the leading `09`
byte (before the start code at offsets 1-3) appears in no emitted range. -/
theorem h26x_bytes_before_first_marker_dropped_witness :
    dropsBytesBelow [longStartCodeChunk, ⟨false, .fromFrame 4, 2⟩] 1 :=
  (h26x_bytes_before_first_marker_dropped [9, 0, 0, 1, 0x67, 0xAA] 4 3
    [longStartCodeChunk, ⟨false, .fromFrame 4, 2⟩] (by rfl)).1 (by rfl)

/-! ## The AV1 partitioner `process_frame_av1` (codec_utils.cpp:286-380) -/

/-- Modelled from the spec: the varint decoder `read_leb128` of `leb128.h`,
which is not under `src/`.  Per §2/§6 it decodes a byte-oriented
little-endian format with continuation bits and a bounded maximum encoded
size, returning the value and the bytes consumed, and fails on malformed
input.  Loop state: accumulated `value`, `fillBits` (the shift for the next
7-bit group, capped so at most ten bytes fill a 64-bit value), bytes
`consumed` so far; a byte with the continuation bit clear terminates. -/
def readLeb128Loop : List Nat → Nat → Nat → Nat → Option (Nat × Nat)
  | [], _, _, _ => none
  | b :: rest, value, fillBits, consumed =>
    if fillBits < 64 then
      let value2 := (value ||| (b % 128) <<< fillBits) % 2 ^ 64
      if b < 128 then some (value2, consumed + 1)
      else readLeb128Loop rest value2 (fillBits + 7) (consumed + 1)
    else none

/-- Modelled from the spec: `read_leb128` on the bytes from the read
pointer to the buffer end; `none` models the null read pointer returned on
malformed input. -/
def read_leb128 (bytes : List Nat) : Option (Nat × Nat) :=
  readLeb128Loop bytes 0 0 0

/-- Modelled from the spec: the varint encoder `write_leb128` of
`leb128.h` (not under `src/`): the canonical little-endian base-128
encoding with continuation bits, at most ten bytes for a 64-bit value
(the structural budget `fuel` is never exhausted for such values). -/
def writeLeb128Aux : Nat → Nat → List Nat
  | 0, v => [v % 128]
  | fuel + 1, v => if v < 128 then [v] else (v % 128 + 128) :: writeLeb128Aux fuel (v / 128)

/-- Modelled from the spec: `write_leb128` into a scratch buffer, returning
the bytes written. -/
def write_leb128 (value : Nat) : List Nat := writeLeb128Aux 10 value

/-- One parsed OBU of an AV1 frame: the index and value of its header byte
(the extension flag is bit 2, the size flag is bit 1, the type is bits 3-6
of `header`) and the position and declared size of its payload. -/
structure av1_obu where
  headerIndex : Nat
  header : Nat
  payloadIndex : Nat
  payloadSize : Nat
deriving DecidableEq

/-- The `while` loop of `process_frame_av1` (codec_utils.cpp:297-377),
emitting accumulator calls.  The cursor `i` advances by `size_t`
arithmetic: `i += obuPayloadSize` (codec_utils.cpp:341) wraps modulo
`2 ^ 64`, so a LEB128-declared size close to `2 ^ 64` can move `i`
backwards and the loop can revisit a position — in which case the source,
whose state at the loop head is exactly `i`, repeats the same iterations
forever.  A terminating run therefore visits each position at most once
and makes at most `frame.length + 1` loop entries, which is the budget the
wrapper passes; `none` (the exhausted budget) models precisely the runs on
which the source never returns. -/
def av1Loop (frame : List Nat) : Nat → Nat → Option frame_result
  | 0, _ => none
  | fuel + 1, i =>
    if i < frame.length then
      let obuHeaderIndex := i
      let obuHeader := byteAt frame obuHeaderIndex
      let afterHeader := if obuHeader &&& 0x04 ≠ 0 then i + 2 else i + 1
      if frame.length ≤ afterHeader then some (.err .malformed_header [])
      else
        match (if obuHeader &&& 0x02 ≠ 0 then
                 match read_leb128 (frame.drop afterHeader) with
                 | none => Except.error dave_error.malformed_size
                 | some vc => Except.ok (vc.1, afterHeader + vc.2)
               else Except.ok (frame.length - afterHeader, afterHeader) :
               Except dave_error (Nat × Nat)) with
        | .error e => some (.err e [])
        | .ok sz =>
          let obuPayloadSize := sz.1
          let obuPayloadIndex := sz.2
          if frame.length < uadd obuPayloadIndex obuPayloadSize then
            some (.err .malformed_payload [])
          else
            let obuType := (obuHeader &&& 0x78) >>> 3
            if obuType = 2 ∨ obuType = 8 ∨ obuType = 15 then
              -- dropped by the packetizer: copy nothing
              av1Loop frame fuel (uadd obuPayloadIndex obuPayloadSize)
            else
              (av1Loop frame fuel (uadd obuPayloadIndex obuPayloadSize)).map
                (frame_result.prepend
                  (⟨false, .literal [if uadd obuPayloadIndex obuPayloadSize = frame.length ∧
                      obuHeader &&& 0x02 ≠ 0 then obuHeader &&& 0xFD else obuHeader], 1⟩ ::
                   (if obuHeader &&& 0x04 ≠ 0 then
                      [⟨false, .fromFrame (obuHeaderIndex + 1), 1⟩] else []) ++
                   (if obuHeader &&& 0x02 ≠ 0 ∧
                       ¬ (uadd obuPayloadIndex obuPayloadSize = frame.length ∧
                         obuHeader &&& 0x02 ≠ 0) then
                      [⟨false, .literal (write_leb128 obuPayloadSize),
                        (write_leb128 obuPayloadSize).length⟩] else []) ++
                   [⟨true, .fromFrame obuPayloadIndex, obuPayloadSize⟩]))
    else some (.ok [])

/-- `process_frame_av1` (codec_utils.cpp:286-380): `some` of the result for
every run that returns or throws; `none` when the wrapped cursor makes the
source loop forever. -/
def process_frame_av1 (frame : List Nat) : Option frame_result :=
  av1Loop frame (frame.length + 1) 0

/-- The OBU structure walk of `process_frame_av1`, recording each OBU
instead of emitting calls (the same control flow, `size_t` cursor
arithmetic and divergence budget as `av1Loop`). -/
def av1ParseLoop (frame : List Nat) : Nat → Nat → Option (Except dave_error (List av1_obu))
  | 0, _ => none
  | fuel + 1, i =>
    if i < frame.length then
      let obuHeaderIndex := i
      let obuHeader := byteAt frame obuHeaderIndex
      let afterHeader := if obuHeader &&& 0x04 ≠ 0 then i + 2 else i + 1
      if frame.length ≤ afterHeader then some (.error .malformed_header)
      else
        match (if obuHeader &&& 0x02 ≠ 0 then
                 match read_leb128 (frame.drop afterHeader) with
                 | none => Except.error dave_error.malformed_size
                 | some vc => Except.ok (vc.1, afterHeader + vc.2)
               else Except.ok (frame.length - afterHeader, afterHeader) :
               Except dave_error (Nat × Nat)) with
        | .error e => some (.error e)
        | .ok sz =>
          let obuPayloadSize := sz.1
          let obuPayloadIndex := sz.2
          if frame.length < uadd obuPayloadIndex obuPayloadSize then
            some (.error .malformed_payload)
          else
            match av1ParseLoop frame fuel (uadd obuPayloadIndex obuPayloadSize) with
            | none => none
            | some (.error e) => some (.error e)
            | some (.ok rest) =>
              some (.ok (⟨obuHeaderIndex, obuHeader, obuPayloadIndex, obuPayloadSize⟩ :: rest))
    else some (.ok [])

/-- The parsed OBUs of an AV1 frame. -/
def av1Parse (frame : List Nat) : Option (Except dave_error (List av1_obu)) :=
  av1ParseLoop frame (frame.length + 1) 0

/-- C5's description of the calls one OBU contributes, written from the
spec's words: OBUs of type temporal-delimiter (2), tile-list (8) or
padding (15) are dropped entirely; a retained OBU contributes its header
byte (with the size-present bit cleared when it had a size and reaches the
frame end — the end test being the source's `size_t` comparison on the
wrapped payload end) and its extension byte (if present) unencrypted, then
its re-encoded LEB128 size unencrypted (when a size was present and not
rewritten away), then its payload encrypted. -/
def av1ObuChunks (frameLength : Nat) (u : av1_obu) : List chunk :=
  if (u.header &&& 0x78) >>> 3 = 2 ∨ (u.header &&& 0x78) >>> 3 = 8 ∨
      (u.header &&& 0x78) >>> 3 = 15 then []
  else
    ⟨false, .literal [if uadd u.payloadIndex u.payloadSize = frameLength ∧
        u.header &&& 0x02 ≠ 0 then u.header &&& 0xFD else u.header], 1⟩ ::
    (if u.header &&& 0x04 ≠ 0 then [⟨false, .fromFrame (u.headerIndex + 1), 1⟩] else []) ++
    (if u.header &&& 0x02 ≠ 0 ∧ ¬ (uadd u.payloadIndex u.payloadSize = frameLength ∧
        u.header &&& 0x02 ≠ 0) then
       [⟨false, .literal (write_leb128 u.payloadSize),
         (write_leb128 u.payloadSize).length⟩] else []) ++
    [⟨true, .fromFrame u.payloadIndex, u.payloadSize⟩]

/-- C8's error condition (amended), written from the claim's words: walking
OBU headers from position `i` with the source's `size_t` (mod `2 ^ 64`)
payload arithmetic, the frame is malformed (`some true`) when a header
(plus its extension byte, if present) would read past or reach the frame
end (leaving no byte after it), when a present LEB128 size field fails to
decode, or when the header end plus the declared payload size — wrapped as
the source computes it — exceeds the frame length; `some false` when the
walk reaches the frame end, and `none` when the wrapped walk revisits a
position and the source never returns. -/
def av1MalformedLoop (frame : List Nat) : Nat → Nat → Option Bool
  | 0, _ => none
  | fuel + 1, i =>
    if i < frame.length then
      let obuHeader := byteAt frame i
      let afterHeader := if obuHeader &&& 0x04 ≠ 0 then i + 2 else i + 1
      if frame.length ≤ afterHeader then some true
      else if obuHeader &&& 0x02 ≠ 0 then
        match read_leb128 (frame.drop afterHeader) with
        | none => some true
        | some vc =>
          if frame.length < uadd (afterHeader + vc.2) vc.1 then some true
          else av1MalformedLoop frame fuel (uadd (afterHeader + vc.2) vc.1)
      else
        let obuPayloadSize := frame.length - afterHeader
        if frame.length < uadd afterHeader obuPayloadSize then some true
        else av1MalformedLoop frame fuel (uadd afterHeader obuPayloadSize)
    else some false

/-- The amended C8 error condition for a whole frame. -/
def av1Malformed (frame : List Nat) : Option Bool :=
  av1MalformedLoop frame (frame.length + 1) 0

/-- C8's error condition exactly as the original claim words it: "would
read past the frame end" strictly (a header ending exactly at the frame
end is allowed), and "the header end plus the declared payload size
exceeds the frame length" as an exact comparison of numbers, with no
mod-`2 ^ 64` wrap. -/
def av1MalformedOrigLoop (frame : List Nat) : Nat → Nat → Bool
  | 0, _ => false
  | fuel + 1, i =>
    if i < frame.length then
      let obuHeader := byteAt frame i
      let afterHeader := if obuHeader &&& 0x04 ≠ 0 then i + 2 else i + 1
      if frame.length < afterHeader then true
      else if obuHeader &&& 0x02 ≠ 0 then
        match read_leb128 (frame.drop afterHeader) with
        | none => true
        | some vc =>
          if frame.length < afterHeader + vc.2 + vc.1 then true
          else av1MalformedOrigLoop frame fuel (afterHeader + vc.2 + vc.1)
      else
        let obuPayloadSize := frame.length - afterHeader
        if frame.length < afterHeader + obuPayloadSize then true
        else av1MalformedOrigLoop frame fuel (afterHeader + obuPayloadSize)
    else false

/-- The original C8 error condition for a whole frame. -/
def av1MalformedOrig (frame : List Nat) : Bool :=
  av1MalformedOrigLoop frame (frame.length + 1) 0

/-- The calls contributed by a list of OBUs, in order. -/
def chunksOfObus (frameLength : Nat) : List av1_obu → List chunk
  | [] => []
  | u :: rest => av1ObuChunks frameLength u ++ chunksOfObus frameLength rest

lemma av1Loop_eq_chunks (frame : List Nat) :
    ∀ fuel i obus, av1ParseLoop frame fuel i = some (.ok obus) →
      av1Loop frame fuel i = some (.ok (chunksOfObus frame.length obus)) := by
  intro fuel
  induction fuel with
  | zero =>
    intro i obus h
    exact absurd h (by simp [av1ParseLoop])
  | succ fuel ih =>
    intro i obus h
    simp only [av1ParseLoop] at h
    simp only [av1Loop]
    by_cases hi : i < frame.length
    · rw [if_pos hi] at h ⊢
      by_cases hafter : frame.length ≤ (if byteAt frame i &&& 0x04 ≠ 0 then i + 2 else i + 1)
      · rw [if_pos hafter] at h
        exact absurd h (by simp)
      · rw [if_neg hafter] at h ⊢
        split at h
        next e hsz =>
          exact absurd h (by simp)
        next sz hsz =>
          by_cases hover : frame.length < uadd sz.2 sz.1
          · rw [if_pos hover] at h
            exact absurd h (by simp)
          · rw [if_neg hover] at h ⊢
            cases hrec : av1ParseLoop frame fuel (uadd sz.2 sz.1) with
            | none =>
              rw [hrec] at h
              exact absurd h (by simp)
            | some r =>
              cases r with
              | error e =>
                rw [hrec] at h
                exact absurd h (by simp)
              | ok rest =>
                rw [hrec] at h
                have hob : obus = ⟨i, byteAt frame i, sz.2, sz.1⟩ :: rest := by
                  injection h with h2
                  injection h2 with h3
                  exact h3.symm
                subst hob
                have hloop := ih (uadd sz.2 sz.1) rest hrec
                by_cases hdrop : (byteAt frame i &&& 0x78) >>> 3 = 2 ∨
                    (byteAt frame i &&& 0x78) >>> 3 = 8 ∨ (byteAt frame i &&& 0x78) >>> 3 = 15
                · rw [if_pos hdrop, hloop]
                  simp [chunksOfObus, av1ObuChunks, hdrop]
                · rw [if_neg hdrop, hloop]
                  simp [chunksOfObus, av1ObuChunks, hdrop, frame_result.prepend]
    · rw [if_neg hi] at h ⊢
      have hob : obus = [] := by
        injection h with h2
        injection h2 with h3
        exact h3.symm
      subst hob
      rfl

/-- C5: for every AV1 frame accepted without error, the calls made are
exactly the per-OBU calls described by the spec: dropped types 2/8/15
contribute nothing; every retained OBU contributes its (possibly
size-bit-cleared) header byte and extension byte unencrypted, its
re-encoded LEB128 size unencrypted when kept, and its payload encrypted. -/
theorem av1_trace_spec (frame : List Nat) (obus : List av1_obu)
    (h : av1Parse frame = some (.ok obus)) :
    process_frame_av1 frame = some (.ok (chunksOfObus frame.length obus)) :=
  av1Loop_eq_chunks frame (frame.length + 1) 0 obus h

/-- C5, witness: a single temporal-delimiter OBU (header `0x10`, no size
bit, payload to frame end) parses to one OBU and contributes no calls. -/
theorem av1_trace_spec_witness : process_frame_av1 [0x10, 0xAA] = some (.ok []) :=
  av1_trace_spec [0x10, 0xAA] [⟨0, 0x10, 1, 1⟩] (by rfl)

/-- The outcome of a run as an error flag: `some true` for a throw,
`some false` for a normal return, `none` for a run that never returns. -/
def errFlag : Option frame_result → Option Bool
  | none => none
  | some r => some r.isErr

lemma errFlag_map_prepend (pre : List chunk) (x : Option frame_result) :
    errFlag (x.map (frame_result.prepend pre)) = errFlag x := by
  cases x with
  | none => rfl
  | some r => cases r <;> rfl

lemma av1Loop_errFlag (frame : List Nat) :
    ∀ fuel i, errFlag (av1Loop frame fuel i) = av1MalformedLoop frame fuel i := by
  intro fuel
  induction fuel with
  | zero => intro i; rfl
  | succ fuel ih =>
    intro i
    simp only [av1Loop, av1MalformedLoop]
    by_cases hi : i < frame.length
    · rw [if_pos hi, if_pos hi]
      by_cases hafter : frame.length ≤ (if byteAt frame i &&& 0x04 ≠ 0 then i + 2 else i + 1)
      · rw [if_pos hafter, if_pos hafter]
        rfl
      · rw [if_neg hafter, if_neg hafter]
        by_cases hsize : byteAt frame i &&& 0x02 ≠ 0
        · rw [if_pos hsize, if_pos hsize]
          cases hleb : read_leb128 (frame.drop
              (if byteAt frame i &&& 0x04 ≠ 0 then i + 2 else i + 1)) with
          | none => rfl
          | some vc =>
            dsimp only
            by_cases hover : frame.length <
                uadd ((if byteAt frame i &&& 0x04 ≠ 0 then i + 2 else i + 1) + vc.2) vc.1
            · rw [if_pos hover, if_pos hover]
              rfl
            · rw [if_neg hover, if_neg hover]
              by_cases hdrop : (byteAt frame i &&& 0x78) >>> 3 = 2 ∨
                  (byteAt frame i &&& 0x78) >>> 3 = 8 ∨ (byteAt frame i &&& 0x78) >>> 3 = 15
              · rw [if_pos hdrop]
                exact ih _
              · rw [if_neg hdrop]
                rw [errFlag_map_prepend]
                exact ih _
        · rw [if_neg hsize, if_neg hsize]
          dsimp only
          by_cases hover : frame.length <
              uadd (if byteAt frame i &&& 0x04 ≠ 0 then i + 2 else i + 1)
                (frame.length - (if byteAt frame i &&& 0x04 ≠ 0 then i + 2 else i + 1))
          · rw [if_pos hover, if_pos hover]
            rfl
          · rw [if_neg hover, if_neg hover]
            by_cases hdrop : (byteAt frame i &&& 0x78) >>> 3 = 2 ∨
                (byteAt frame i &&& 0x78) >>> 3 = 8 ∨ (byteAt frame i &&& 0x78) >>> 3 = 15
            · rw [if_pos hdrop]
              exact ih _
            · rw [if_neg hdrop]
              rw [errFlag_map_prepend]
              exact ih _
    · rw [if_neg hi, if_neg hi]
      rfl

/-- C8 (amended): walking the OBU headers with the source's `size_t`
position arithmetic, `process_frame_av1` throws exactly when a header (or
its extension byte) would read past **or reach** the frame end (leaving no
byte after it), or a present LEB128 size field fails to decode, or the
header end plus the declared payload size — computed mod `2 ^ 64` as the
source does — exceeds the frame length; it completes with success exactly
when the walk reaches the frame end, and it never returns exactly when the
wrapped walk revisits a position.  Two corrections to the original claim:
a size-less OBU whose header ends exactly at the frame end (an empty
implicit payload) is also rejected, and a declared size near `2 ^ 64`
wraps the overflow check so an exact "header end plus declared size
exceeds the frame length" condition does not raise an error. -/
theorem av1_error_iff (frame : List Nat) :
    errFlag (process_frame_av1 frame) = av1Malformed frame :=
  av1Loop_errFlag frame (frame.length + 1) 0

/-- C8, counterexample to the original claim, in both directions.  The
one-byte frame `[00]` (type-0 OBU, no extension, no size bit, an empty
payload reaching the frame end) satisfies none of the claim's three error
conditions — as `av1MalformedOrig` computes — yet the code throws its
malformed-header error.  Conversely, on the 12-byte frame
`02 FF FF FF FF FF FF FF FF FF 01 01` the first OBU declares the LEB128
size `2 ^ 64 - 1`, so its header end plus declared size (`11 + 2 ^ 64 - 1`)
exceeds the frame length and the claim demands an error — but the code's
`size_t` check wraps to 10, passes, re-reads the final LEB byte as a second
OBU header, and returns success. -/
theorem av1_error_counterexample :
    process_frame_av1 [0x00] = some (.err .malformed_header []) ∧
      av1MalformedOrig [0x00] = false ∧
      process_frame_av1 [0x02, 255, 255, 255, 255, 255, 255, 255, 255, 255, 1, 1] =
        some (.ok
          [⟨false, .literal [0x02], 1⟩,
           ⟨false, .literal [255, 255, 255, 255, 255, 255, 255, 255, 255, 1], 10⟩,
           ⟨true, .fromFrame 11, 2 ^ 64 - 1⟩,
           ⟨false, .literal [0x01], 1⟩,
           ⟨true, .fromFrame 11, 1⟩]) ∧
      av1MalformedOrig [0x02, 255, 255, 255, 255, 255, 255, 255, 255, 255, 1, 1] = true := by
  exact ⟨rfl, rfl, rfl, rfl⟩

/-! ## The post-encryption validator `validate_encrypted_frame`
(codec_utils.cpp:382-423) -/

/-- The codec identities of the accumulator (spec §3; the enum values used
by `validate_encrypted_frame`). -/
inductive codec
  | cd_unknown
  | cd_opus
  | cd_vp8
  | cd_vp9
  | cd_h264
  | cd_h265
  | cd_av1
deriving DecidableEq

/-- An unencrypted range recorded by the accumulator (spec §3/§6). -/
structure byte_range where
  offset : Nat
  size : Nat
deriving DecidableEq

/-- The range loop of `validate_encrypted_frame` (codec_utils.cpp:396-422),
with the trailing-gap check after the loop folded into the base case.
`Padding` is `kH26XNaluShortStartSequenceSize - 1 = 2`. -/
def validateLoop (frame : List Nat) : List byte_range → Nat → Bool
  | [], encryptedSectionStart =>
    if encryptedSectionStart = frame.length then true
    else
      let start := encryptedSectionStart - min encryptedSectionStart 2
      !(FindNextH26XNaluIndex
          ((frame.drop start).take (frame.length - start))).isSome
  | r :: rest, encryptedSectionStart =>
    if encryptedSectionStart = r.offset then
      validateLoop frame rest (encryptedSectionStart + r.size)
    else
      let start := encryptedSectionStart - min encryptedSectionStart 2
      let stop := min (r.offset + 2) frame.length
      if (FindNextH26XNaluIndex ((frame.drop start).take (stop - start))).isSome then
        false
      else
        validateLoop frame rest (r.offset + r.size)

/-- `validate_encrypted_frame` (codec_utils.cpp:382-423), reading the
accumulator's codec and recorded unencrypted ranges through its interface
(spec §6). -/
def validate_encrypted_frame (c : codec) (unencryptedRanges : List byte_range)
    (frame : List Nat) : Bool :=
  if c ≠ .cd_h264 ∧ c ≠ .cd_h265 then true
  else validateLoop frame unencryptedRanges 0

/-- The encrypted spans implied by the recorded unencrypted ranges (spec
§3): the gaps between consecutive recorded ranges starting from cursor
`enc`, and the gap after the last range up to the frame end, as
`(span start, span end)` pairs. -/
def encryptedGaps (frameLength : Nat) : List byte_range → Nat → List (Nat × Nat)
  | [], enc => if enc = frameLength then [] else [(enc, frameLength)]
  | r :: rest, enc =>
    if enc = r.offset then encryptedGaps frameLength rest (enc + r.size)
    else (enc, r.offset) :: encryptedGaps frameLength rest (r.offset + r.size)

/-- The window the validator scans for an encrypted span: the span padded
by 2 bytes on each side, clipped to the frame. -/
def gapWindow (frame : List Nat) (g : Nat × Nat) : List Nat :=
  (frame.drop (g.1 - min g.1 2)).take
    (min (g.2 + 2) frame.length - (g.1 - min g.1 2))

lemma bool_not_eq_false (b : Bool) : (!b) = false ↔ b = true := by
  cases b <;> simp

lemma validateLoop_false_iff (frame : List Nat) :
    ∀ rs enc, validateLoop frame rs enc = false ↔
      ∃ g ∈ encryptedGaps frame.length rs enc, ∃ i, markerAt (gapWindow frame g) i := by
  intro rs
  induction rs with
  | nil =>
    intro enc
    by_cases henc : enc = frame.length
    · simp [validateLoop, encryptedGaps, henc]
    · simp only [validateLoop, encryptedGaps]
      rw [if_neg henc, if_neg henc]
      have hw : (frame.drop (enc - min enc 2)).take (frame.length - (enc - min enc 2)) =
          gapWindow frame (enc, frame.length) := by
        unfold gapWindow
        rw [Nat.min_eq_right (by omega : frame.length ≤ frame.length + 2)]
      rw [hw, bool_not_eq_false]
      constructor
      · intro hsome
        obtain ⟨i, hm⟩ := (findNext_isSome_iff _).mp hsome
        exact ⟨(enc, frame.length), List.mem_singleton_self _, i, hm⟩
      · rintro ⟨g, hg, i, hm⟩
        have hgeq : g = (enc, frame.length) := List.mem_singleton.mp hg
        subst hgeq
        exact (findNext_isSome_iff _).mpr ⟨i, hm⟩
  | cons r rest ih =>
    intro enc
    simp only [validateLoop, encryptedGaps]
    by_cases heq : enc = r.offset
    · rw [if_pos heq, if_pos heq]
      exact ih (enc + r.size)
    · rw [if_neg heq, if_neg heq]
      have hw : (frame.drop (enc - min enc 2)).take
          (min (r.offset + 2) frame.length - (enc - min enc 2)) =
          gapWindow frame (enc, r.offset) := rfl
      by_cases hsome : (FindNextH26XNaluIndex
          ((frame.drop (enc - min enc 2)).take
            (min (r.offset + 2) frame.length - (enc - min enc 2)))).isSome = true
      · rw [if_pos hsome]
        obtain ⟨i, hm⟩ := (findNext_isSome_iff _).mp (hw ▸ hsome)
        refine ⟨fun _ => ⟨(enc, r.offset), List.mem_cons_self _ _, i, hm⟩, fun _ => rfl⟩
      · rw [if_neg hsome]
        rw [ih (r.offset + r.size)]
        constructor
        · rintro ⟨g, hg, i, hm⟩
          exact ⟨g, List.mem_cons_of_mem _ hg, i, hm⟩
        · rintro ⟨g, hg, i, hm⟩
          rcases List.mem_cons.mp hg with hgh | hgt
          · subst hgh
            exact absurd ((findNext_isSome_iff _).mpr ⟨i, hm⟩) (hw ▸ hsome)
          · exact ⟨g, hgt, i, hm⟩

/-- C3 (amended): for an H.264/H.265 accumulator the validator fails
exactly when the §4.1 scanner finds a `00 00 01` start code in some
encrypted span's 2-byte-padded window — i.e. a marker followed by at least
one further byte of that window (`markerAt`); a marker in the last three
bytes of a window is missed (see the counterexample).  The vacuous case
(no gaps: the recorded ranges tile the whole frame) succeeds, and every
other codec succeeds regardless of the frame. -/
theorem validate_encrypted_frame_spec (c : codec) (rs : List byte_range)
    (frame : List Nat) :
    (c = .cd_h264 ∨ c = .cd_h265 →
      (validate_encrypted_frame c rs frame = false ↔
        ∃ g ∈ encryptedGaps frame.length rs 0, ∃ i, markerAt (gapWindow frame g) i)) ∧
    (c ≠ .cd_h264 → c ≠ .cd_h265 → validate_encrypted_frame c rs frame = true) := by
  constructor
  · intro hc
    unfold validate_encrypted_frame
    have hcond : ¬ (c ≠ codec.cd_h264 ∧ c ≠ codec.cd_h265) := by
      rcases hc with rfl | rfl
      · intro hand
        exact hand.1 rfl
      · intro hand
        exact hand.2 rfl
    rw [if_neg hcond]
    exact validateLoop_false_iff frame rs 0
  · intro h1 h2
    unfold validate_encrypted_frame
    rw [if_pos ⟨h1, h2⟩]

/-- C3, witness: an H.264 accumulator with no recorded unencrypted range
over the frame `00 00 01 09` (one all-encrypted gap whose window is the
whole frame, containing a scanner-visible marker) fails validation. -/
theorem validate_encrypted_frame_spec_witness :
    validate_encrypted_frame .cd_h264 [] [0, 0, 1, 9] = false :=
  ((validate_encrypted_frame_spec .cd_h264 [] [0, 0, 1, 9]).1 (Or.inl rfl)).mpr
    ⟨(0, 4), by decide, 0, by decide⟩

/-- C3, counterexample to the original claim: with codec H.264, one
recorded unencrypted range `[0, 2)` and frame `AA BB 00 00 01`, the bytes
`00 00 01` at offsets 2-4 form a start code inside the encrypted span
`[2, 5)` (and inside its padded window), so the claim demands failure —
but the scanner never reports a marker ending at the window's final byte,
and validation succeeds. -/
theorem validate_misses_window_tail_marker :
    validate_encrypted_frame .cd_h264 [⟨0, 2⟩] [0xAA, 0xBB, 0, 0, 1] = true ∧
      specMarkerAt [0xAA, 0xBB, 0, 0, 1] 2 := by
  exact ⟨rfl, by decide⟩

end CodecUtils
